import Mathlib

/-!
Verification of the tatc-mcp satellite ground-track pipeline.

This file gives a shallow embedding of the request-normalization and
telemetry-formatting pipeline of the repository and proves its stated
properties.  Python strings are modelled as `List Char`, Python floats as
`ℚ` (exact arithmetic) except for the trigonometric footprint calculator
which is modelled over `ℝ`, and `datetime` instants as integer
microseconds (`ℤ`, the resolution of Python `datetime` arithmetic).
Fallible Python code (raising `ValueError`) is modelled with
`Except (List Char)` or `Option`; error-message interpolation is elided,
each raise site carrying a fixed message.
-/

/-- Shorthand turning a string literal into the `List Char` model of a
Python `str`. -/
def sl (s : String) : List Char := s.toList

/-- Model of Python `str.strip()`: remove leading and trailing whitespace. -/
def pyStrip (l : List Char) : List Char :=
  ((l.dropWhile Char.isWhitespace).reverse.dropWhile Char.isWhitespace).reverse

/-- ASCII lower-casing of one character, the fragment of Python
`str.lower()` relevant to this code base. -/
def lowerChar (c : Char) : Char :=
  if 'A' ≤ c ∧ c ≤ 'Z' then Char.ofNat (c.toNat + 32) else c

/-- Model of Python `str.lower()` (ASCII fragment). -/
def pyLower (l : List Char) : List Char := l.map lowerChar

/-- Model of Python `str.startswith`. -/
def startsWith (l s : List Char) : Bool := decide (l.take s.length = s)

/-- Model of Python `str.endswith`. -/
def endsWith (l s : List Char) : Bool := decide (l.reverse.take s.length = s.reverse)

/-- Model of Python `a % b` on numbers (result has the sign of the
divisor): `a - b * ⌊a / b⌋`. -/
def pymodQ (a b : ℚ) : ℚ := a - b * ⌊a / b⌋

/-- Longitude normalization of `validate_coordinates`
(src/validation.py lines 175-177): wrap into `[-180, 180]` only when the
input lies strictly outside that interval. -/
def normalizeLon (lon : ℚ) : ℚ :=
  if lon < -180 ∨ 180 < lon then pymodQ (lon + 180) 360 - 180 else lon

/-- Error message of the latitude range check in `validate_coordinates`. -/
def latRangeMsg : List Char := sl "Latitude is out of valid range -90 to 90"

/-- Model of `validate_coordinates` (src/validation.py lines 148-179):
latitude strictly outside `[-90, 90]` raises; longitude is wrapped via
`normalizeLon`.  The `isinstance` guards are elided since the model is
typed over `ℚ`. -/
def validateCoordinates (lat lon : ℚ) : Except (List Char) (ℚ × ℚ) :=
  if ¬ (-90 ≤ lat ∧ lat ≤ 90) then .error latRangeMsg
  else .ok (lat, normalizeLon lon)

/-- Error messages of `validate_step_interval` (src/validation.py). -/
def stepSmallMsg : List Char := sl "Step interval is too small"

/-- Second error message of `validate_step_interval`. -/
def stepLargeMsg : List Char := sl "Step interval is too large"

/-- Model of `validate_step_interval` (src/validation.py lines 119-144);
the Python defaults are `min_step = 1.0`, `max_step = 3600.0`. -/
def validateStepInterval (stepSeconds minStep maxStep : ℚ) : Except (List Char) ℚ :=
  if stepSeconds < minStep then .error stepSmallMsg
  else if maxStep < stepSeconds then .error stepLargeMsg
  else .ok stepSeconds

/-- The wrapped longitude equals the input shifted by an integer number of
full turns. -/
theorem normalizeLon_sub (lon : ℚ) : ∃ k : ℤ, normalizeLon lon = lon + 360 * k := by
  unfold normalizeLon
  split
  · refine ⟨-⌊(lon + 180) / 360⌋, ?_⟩
    unfold pymodQ
    push_cast
    ring
  · exact ⟨0, by ring⟩

/-- The wrapped longitude always lies in `[-180, 180]`. -/
theorem normalizeLon_mem (lon : ℚ) : -180 ≤ normalizeLon lon ∧ normalizeLon lon ≤ 180 := by
  by_cases h : lon < -180 ∨ 180 < lon
  · rw [normalizeLon, if_pos h]
    unfold pymodQ
    have heq : lon + 180 - 360 * ⌊(lon + 180) / 360⌋ = 360 * Int.fract ((lon + 180) / 360) := by
      rw [Int.fract]
      field_simp
    have h0 : (0 : ℚ) ≤ Int.fract ((lon + 180) / 360) := Int.fract_nonneg _
    have h1 : Int.fract ((lon + 180) / 360) < 1 := Int.fract_lt_one _
    constructor <;> nlinarith [heq]
  · rw [normalizeLon, if_neg h]
    push_neg at h
    exact h

/-- Claim C5: longitude normalization in `validate_coordinates` is
idempotent — a longitude already in `[-180, 180]` is returned unchanged —
and every input longitude is mapped into `[-180, 180]` to a value
congruent to the input modulo 360. -/
theorem c5_lon_normalization (lon : ℚ) :
    ((-180 ≤ lon ∧ lon ≤ 180) → normalizeLon lon = lon) ∧
    (-180 ≤ normalizeLon lon ∧ normalizeLon lon ≤ 180) ∧
    (∃ k : ℤ, normalizeLon lon = lon + 360 * k) := by
  refine ⟨?_, normalizeLon_mem lon, normalizeLon_sub lon⟩
  intro h
  rw [normalizeLon, if_neg]
  push_neg
  exact h

/-- Witness for C5 at the concrete longitudes 100 and 550. -/
theorem c5_lon_normalization_witness :
    normalizeLon 100 = 100 ∧
    (-180 ≤ normalizeLon 550 ∧ normalizeLon 550 ≤ 180) := by
  constructor
  · exact (c5_lon_normalization 100).1 (by norm_num)
  · exact (c5_lon_normalization 550).2.1

/-- Claim C4: `validate_coordinates` raises on every latitude outside
`[-90, 90]` (never clamping), and returns every in-range latitude
unchanged. -/
theorem c4_latitude_validation (lat lon : ℚ) :
    ((lat < -90 ∨ 90 < lat) → validateCoordinates lat lon = .error latRangeMsg) ∧
    ((-90 ≤ lat ∧ lat ≤ 90) → validateCoordinates lat lon = .ok (lat, normalizeLon lon)) := by
  constructor
  · intro h
    rw [validateCoordinates, if_pos]
    intro hc
    rcases h with h | h
    · linarith [hc.1]
    · linarith [hc.2]
  · intro h
    rw [validateCoordinates, if_neg (not_not_intro h)]

/-- Witness for C4 at latitude 100 (rejected) and 45 (accepted unchanged). -/
theorem c4_latitude_validation_witness :
    validateCoordinates 100 7 = .error latRangeMsg ∧
    validateCoordinates 45 7 = .ok (45, normalizeLon 7) := by
  constructor
  · exact (c4_latitude_validation 100 7).1 (by norm_num)
  · exact (c4_latitude_validation 45 7).2 (by norm_num)

/-- Model of the instant-sequence loop of `generate_ground_track`
(src/tatc_integration.py lines 116-121): starting from `current`, append
`current` and advance by `step` while `current ≤ endT`.  Instants and the
step are integer microseconds, the exact resolution of Python `datetime`
arithmetic; the guard `0 < step` makes the Python loop (which would not
terminate otherwise) well founded. -/
def groundTrackTimes (endT step current : ℤ) : List ℤ :=
  if 0 < step ∧ current ≤ endT then
    current :: groundTrackTimes endT step (current + step)
  else []
termination_by (endT + 1 - current).toNat
decreasing_by omega

/-- The instant sequence of `generate_ground_track`: the loop started at
`startT`. -/
def genTimes (startT endT step : ℤ) : List ℤ := groundTrackTimes endT step startT

/-- Induction principle along the loop of `groundTrackTimes`. -/
theorem groundTrackTimes_rec (endT step : ℤ) (hst : 0 < step) (P : ℤ → Prop)
    (hstop : ∀ c, ¬ c ≤ endT → P c)
    (hgo : ∀ c, c ≤ endT → P (c + step) → P c) : ∀ c, P c := by
  have key : ∀ n : ℕ, ∀ c : ℤ, (endT + 1 - c).toNat ≤ n → P c := by
    intro n
    induction n with
    | zero =>
      intro c hc
      exact hstop c (by omega)
    | succ n ih =>
      intro c hc
      by_cases hce : c ≤ endT
      · exact hgo c hce (ih (c + step) (by omega))
      · exact hstop c hce
  exact fun c => key (endT + 1 - c).toNat c le_rfl

/-- Each run of the loop is strictly increasing. -/
theorem groundTrackTimes_chain (endT step : ℤ) (hst : 0 < step) :
    ∀ c, List.Chain' (· < ·) (groundTrackTimes endT step c) := by
  refine groundTrackTimes_rec endT step hst _ ?_ ?_
  · intro c hc
    rw [groundTrackTimes, if_neg (by tauto)]
    exact List.chain'_nil
  · intro c hc ih
    rw [groundTrackTimes, if_pos ⟨hst, hc⟩]
    refine List.chain'_cons'.mpr ⟨?_, ih⟩
    intro b hb
    rw [groundTrackTimes] at hb
    by_cases h2 : c + step ≤ endT
    · rw [if_pos ⟨hst, h2⟩] at hb
      simp only [List.head?_cons, Option.mem_def, Option.some.injEq] at hb
      omega
    · rw [if_neg (by tauto)] at hb
      simp at hb

/-- The last element of each run lies in the half-open window
`(endT - step, endT]`. -/
theorem groundTrackTimes_getLast (endT step : ℤ) (hst : 0 < step) :
    ∀ c, c ≤ endT → ∃ t, (groundTrackTimes endT step c).getLast? = some t ∧
      t ≤ endT ∧ endT - step < t := by
  refine groundTrackTimes_rec endT step hst _ ?_ ?_
  · intro c hc hc2
    exact absurd hc2 hc
  · intro c hc ih _
    rw [groundTrackTimes, if_pos ⟨hst, hc⟩]
    by_cases h2 : c + step ≤ endT
    · obtain ⟨t, ht, h3, h4⟩ := ih h2
      refine ⟨t, ?_, h3, h4⟩
      rw [groundTrackTimes] at ht ⊢
      rw [if_pos ⟨hst, h2⟩] at ht ⊢
      rw [List.getLast?_cons_cons]
      exact ht
    · rw [groundTrackTimes, if_neg (by tauto)]
      exact ⟨c, rfl, hc, by omega⟩

/-- Claim C1: for valid inputs (`start < end`, 1 s ≤ step ≤ 3600 s,
window at most 30 days; all in microseconds) the instant sequence of
`generate_ground_track` is strictly increasing, begins at `start`, and
its last instant lies in `(end - step, end]`. -/
theorem c1_ground_track_instants (startT endT step : ℤ)
    (h1 : startT < endT) (h2 : 1000000 ≤ step) (h3 : step ≤ 3600000000)
    (h4 : endT - startT ≤ 2592000000000) :
    (genTimes startT endT step).head? = some startT ∧
    List.Pairwise (· < ·) (genTimes startT endT step) ∧
    ∃ t, (genTimes startT endT step).getLast? = some t ∧
      t ≤ endT ∧ endT - step < t := by
  have hst : 0 < step := by omega
  refine ⟨?_, ?_, groundTrackTimes_getLast endT step hst startT (by omega)⟩
  · rw [genTimes, groundTrackTimes, if_pos ⟨hst, by omega⟩]
    rfl
  · exact List.chain'_iff_pairwise.mp (groundTrackTimes_chain endT step hst startT)

/-- Witness for C1: one hour at a one-minute step starting at zero. -/
theorem c1_ground_track_instants_witness :
    (genTimes 0 3600000000 60000000).head? = some 0 ∧
    List.Pairwise (· < ·) (genTimes 0 3600000000 60000000) ∧
    ∃ t, (genTimes 0 3600000000 60000000).getLast? = some t ∧
      t ≤ 3600000000 ∧ 3600000000 - 60000000 < t :=
  c1_ground_track_instants 0 3600000000 60000000 (by norm_num) (by norm_num)
    (by norm_num) (by norm_num)

/-- Point selection of the batch path of `generate_ground_track`
(src/tatc_integration.py line 140): use the point at the instant index,
or the last returned point when the index is out of range; `none` models
the `IndexError` an empty batch result raises (caught and skipped by the
surrounding handler). -/
def pointAt {P : Type} (pts : List P) (i : ℕ) : Option P :=
  if i < pts.length then pts[i]? else pts.getLast?

/-- Batch path of `generate_ground_track` (src/tatc_integration.py lines
134-149): pair each instant with its positionally aligned propagation
point, extract coordinates (`extract`, with `none` modelling a raised
extraction error), and silently skip instants whose lookup or extraction
fails. -/
def batchGroundTrack {P L : Type} (times : List ℤ) (pts : List P)
    (extract : P → Option L) : List (ℤ × L) :=
  times.enum.filterMap fun it =>
    ((pointAt pts it.1).bind extract).map fun lla => (it.2, lla)

/-- A filterMap by an everywhere-defined function keeps all elements. -/
theorem length_filterMap_of_isSome {α β : Type} (f : α → Option β) :
    ∀ l : List α, (∀ x ∈ l, (f x).isSome = true) → (l.filterMap f).length = l.length := by
  intro l
  induction l with
  | nil => intro _; rfl
  | cons a t ih =>
    intro h
    have ha := h a (List.mem_cons_self a t)
    rw [List.filterMap_cons]
    cases hfa : f a with
    | none => rw [hfa] at ha; simp at ha
    | some b =>
      simp only [List.length_cons]
      rw [ih fun x hx => h x (List.mem_cons_of_mem a hx)]

/-- Claim C2: in the batch path, every instant index at or beyond the
length of the returned point list is served by the last returned point
(so running on the short list equals running on the list padded with its
last point), and when coordinate extraction never fails the track keeps
one sample per instant. -/
theorem c2_batch_pad_with_last {P L : Type} (times : List ℤ) (pts : List P)
    (extract : P → Option L) (hne : pts ≠ []) :
    (∀ i, pts.length ≤ i → pointAt pts i = some (pts.getLast hne)) ∧
    batchGroundTrack times pts extract =
      batchGroundTrack times
        (pts ++ List.replicate (times.length - pts.length) (pts.getLast hne)) extract ∧
    ((∀ p, (extract p).isSome = true) →
      (batchGroundTrack times pts extract).length = times.length) := by
  have hlast : pts.getLast? = some (pts.getLast hne) := List.getLast?_eq_getLast pts hne
  have hpoint : ∀ i, pts.length ≤ i → pointAt pts i = some (pts.getLast hne) := by
    intro i hi
    rw [pointAt, if_neg (by omega), hlast]
  refine ⟨hpoint, ?_, ?_⟩
  · rw [batchGroundTrack, batchGroundTrack]
    apply List.filterMap_congr
    intro x hx
    have hxlt : x.1 < times.length := by
      rw [List.enum_eq_zip_range] at hx
      have := (List.of_mem_zip hx).1
      simpa using this
    have hplen : (pts ++ List.replicate (times.length - pts.length)
        (pts.getLast hne)).length = max pts.length times.length := by
      rw [List.length_append, List.length_replicate]
      omega
    have hpts : pointAt (pts ++ List.replicate (times.length - pts.length)
        (pts.getLast hne)) x.1 = pointAt pts x.1 := by
      by_cases hi : x.1 < pts.length
      · rw [pointAt, pointAt, if_pos hi, if_pos (by omega),
          List.getElem?_append_left hi]
      · have hlen : pts.length < times.length := by omega
        rw [hpoint x.1 (by omega), pointAt, if_pos (by omega),
          List.getElem?_append_right (by omega), List.getElem?_replicate,
          if_pos (by omega)]
    rw [hpts]
  · intro hext
    rw [batchGroundTrack]
    rw [length_filterMap_of_isSome _ _ ?_, List.enum_length]
    intro x _
    obtain ⟨p, hpa⟩ : ∃ p, pointAt pts x.1 = some p := by
      by_cases hi : x.1 < pts.length
      · exact ⟨_, by rw [pointAt, if_pos hi, List.getElem?_eq_getElem hi]⟩
      · exact ⟨_, by rw [pointAt, if_neg hi, hlast]⟩
    obtain ⟨lla, hep⟩ : ∃ lla, extract p = some lla :=
      Option.isSome_iff_exists.mp (hext p)
    simp [hpa, hep]

/-- Witness for C2: three instants served by a single-point batch result. -/
theorem c2_batch_pad_with_last_witness :
    (pointAt [(5 : ℤ)] 2 = some 5) ∧
    (batchGroundTrack [10, 20, 30] [(5 : ℤ)] (fun p => some p)).length = 3 := by
  have h := c2_batch_pad_with_last [10, 20, 30] [(5 : ℤ)] (fun p => some p)
    (by decide)
  exact ⟨h.1 2 (by norm_num), h.2.2 fun p => rfl⟩

/-- Output shape of `format_footprint_geojson`: the polygon ring and the
properties object (an association list, empty in every produced feature);
the constant `type` and `geometry.type` tags carry no information and are
elided. -/
structure GeoFeature where
  ring : List (List ℚ)
  props : List (List Char × List Char)
deriving DecidableEq

/-- Per-vertex validation of `format_footprint_geojson`
(src/tatc_mcp/schema_formatter.py lines 87-96): a coordinate pair shorter
than two entries is dropped, otherwise `(lat, lon)` is validated and
normalized via `validate_coordinates`, with a validation error dropping
the vertex. -/
def validVertex (c : List ℚ) : Option (List ℚ) :=
  match c with
  | lon :: lat :: _ =>
    match validateCoordinates lat lon with
    | .ok (la, lo) => some [lo, la]
    | .error _ => none
  | _ => none

/-- Model of `format_footprint_geojson`
(src/tatc_mcp/schema_formatter.py lines 74-115): `None` when fewer than 3
input vertices or fewer than 3 valid vertices; otherwise the validated
ring, force-closed by appending its first vertex when first and last
differ, with empty properties. -/
def formatFootprintGeojson (coords : List (List ℚ)) : Option GeoFeature :=
  if coords.length < 3 then none
  else
    let validated := coords.filterMap validVertex
    if validated.length < 3 then none
    else
      let ring := if validated.head? = validated.getLast? then validated
        else validated ++ validated.take 1
      some ⟨ring, []⟩

/-- Claim C6: `format_footprint_geojson` yields `None` whenever fewer than
3 valid vertices survive per-vertex validation, and every produced feature
has a closed non-empty ring and an empty properties object. -/
theorem c6_footprint_geojson (coords : List (List ℚ)) :
    ((coords.filterMap validVertex).length < 3 → formatFootprintGeojson coords = none) ∧
    (∀ f, formatFootprintGeojson coords = some f →
      f.ring.head? = f.ring.getLast? ∧ f.ring ≠ [] ∧ f.props = []) := by
  constructor
  · intro hlt
    rw [formatFootprintGeojson]
    by_cases hc : coords.length < 3
    · rw [if_pos hc]
    · rw [if_neg hc]
      simp only [if_pos hlt]
  · intro f hf
    rw [formatFootprintGeojson] at hf
    by_cases hc : coords.length < 3
    · rw [if_pos hc] at hf
      exact absurd hf (by simp)
    · rw [if_neg hc] at hf
      simp only at hf
      by_cases hv : (coords.filterMap validVertex).length < 3
      · rw [if_pos hv] at hf
        exact absurd hf (by simp)
      · rw [if_neg hv] at hf
        simp only [Option.some.injEq] at hf
        subst hf
        simp only
        by_cases hcl : (coords.filterMap validVertex).head? =
            (coords.filterMap validVertex).getLast?
        · rw [if_pos hcl]
          refine ⟨hcl, ?_, trivial⟩
          intro hnil
          rw [hnil] at hv
          exact hv (by norm_num)
        · rw [if_neg hcl]
          obtain ⟨v, vs, hvs⟩ : ∃ v vs, coords.filterMap validVertex = v :: vs := by
            cases hd : coords.filterMap validVertex with
            | nil => rw [hd] at hv; exact absurd (by norm_num) hv
            | cons v vs => exact ⟨v, vs, rfl⟩
          rw [hvs]
          refine ⟨?_, List.cons_ne_nil v (vs ++ [v]), trivial⟩
          rw [show (v :: vs).take 1 = [v] from rfl,
            show v :: vs ++ [v] = (v :: vs) ++ [v] from rfl, List.getLast?_concat]
          rfl

/-- Witness for C6: a two-vertex ring is rejected and a three-vertex ring
is emitted force-closed with empty properties. -/
theorem c6_footprint_geojson_witness :
    formatFootprintGeojson [[0, 0], [1, 1]] = none ∧
    ((⟨[[0, 0], [10, 0], [20, 5], [0, 0]], []⟩ : GeoFeature).ring.head? =
        (⟨[[0, 0], [10, 0], [20, 5], [0, 0]], []⟩ : GeoFeature).ring.getLast? ∧
      (⟨[[0, 0], [10, 0], [20, 5], [0, 0]], []⟩ : GeoFeature).ring ≠ [] ∧
      (⟨[[0, 0], [10, 0], [20, 5], [0, 0]], []⟩ : GeoFeature).props = []) := by
  constructor
  · exact (c6_footprint_geojson [[0, 0], [1, 1]]).1 (by decide)
  · exact (c6_footprint_geojson [[0, 0], [10, 0], [20, 5]]).2
      ⟨[[0, 0], [10, 0], [20, 5], [0, 0]], []⟩ (by decide)

/-- Decimal digit character for a value below ten. -/
def digitOf (n : ℕ) : Char :=
  match n with
  | 0 => '0'
  | 1 => '1'
  | 2 => '2'
  | 3 => '3'
  | 4 => '4'
  | 5 => '5'
  | 6 => '6'
  | 7 => '7'
  | 8 => '8'
  | _ => '9'

/-- Numeric value of a decimal digit character. -/
def charVal (c : Char) : ℕ := c.toNat - 48

/-- Base-ten value of a digit character list. -/
def natVal (l : List Char) : ℕ := l.foldl (fun a c => 10 * a + charVal c) 0

/-- Decimal value of a non-empty all-digit character list, the accepting
core of Python `int()`. -/
def digitsVal (l : List Char) : Option ℕ :=
  if l ≠ [] ∧ l.all Char.isDigit then some (natVal l) else none

/-- Sign handling of Python `int()` on an already-stripped string: an
optional leading plus or minus followed by at least one digit. -/
def intCore (l : List Char) : Option ℤ :=
  match l with
  | [] => none
  | c :: rest =>
    if c = '+' then (digitsVal rest).map (fun k : ℕ => (k : ℤ))
    else if c = '-' then (digitsVal rest).map (fun k : ℕ => -(k : ℤ))
    else (digitsVal l).map (fun k : ℕ => (k : ℤ))

/-- Model of Python `int(str)` on decimal literals: surrounding whitespace
is ignored, a sign is honoured, anything else fails (`ValueError`,
modelled as `none`). -/
def parsePyInt (l : List Char) : Option ℤ := intCore (pyStrip l)

/-- Fraction-aware accepting core of Python `float()` on an
already-stripped unsigned decimal literal: digits with an optional dot
and fraction digits. -/
def floatCore (l : List Char) : Option ℚ :=
  match l.dropWhile Char.isDigit with
  | [] =>
    if l.takeWhile Char.isDigit = [] then none
    else some ((natVal (l.takeWhile Char.isDigit) : ℕ) : ℚ)
  | c :: fp =>
    if c = '.' ∧ fp.all Char.isDigit ∧ (l.takeWhile Char.isDigit ≠ [] ∨ fp ≠ []) then
      some (((natVal (l.takeWhile Char.isDigit) : ℕ) : ℚ) +
        ((natVal fp : ℕ) : ℚ) / 10 ^ fp.length)
    else none

/-- Model of Python `float(str)` on plain decimal literals (no exponent,
infinity or NaN forms, which this code base never feeds it). -/
def parsePyFloat (l : List Char) : Option ℚ :=
  match pyStrip l with
  | [] => none
  | c :: rest =>
    if c = '+' then floatCore rest
    else if c = '-' then (floatCore rest).map Neg.neg
    else floatCore (c :: rest)

/-- Model of Python `str.split()` with no separator: split on whitespace
runs, producing no empty tokens. -/
def splitWs (l : List Char) : List (List Char) :=
  match l with
  | [] => []
  | c :: rest =>
    if c.isWhitespace then splitWs rest
    else (c :: rest).takeWhile (fun x => !x.isWhitespace) ::
      splitWs ((c :: rest).dropWhile (fun x => !x.isWhitespace))
termination_by l.length
decreasing_by
  · simp
  · simp only [List.dropWhile]
    split
    · have h2 : (rest.dropWhile fun x => !x.isWhitespace).length ≤
          rest.length := (List.dropWhile_suffix _).length_le
      simp only [List.length_cons]
      omega
    · simp_all

/-- Model of `_parse_time_unit` (src/server.py lines 48-50): look the
lower-cased unit up in the `_TIME_UNITS` alias table, falling back to the
token itself when it is a canonical `_UNIT_TO_DELTA` key. -/
def normalizeTimeUnit (u : List Char) : Option (List Char) :=
  if pyLower u = sl "second" ∨ pyLower u = sl "sec" ∨ pyLower u = sl "secs" then
    some (sl "seconds")
  else if pyLower u = sl "minute" ∨ pyLower u = sl "min" ∨ pyLower u = sl "mins" then
    some (sl "minutes")
  else if pyLower u = sl "hour" ∨ pyLower u = sl "hr" ∨ pyLower u = sl "hrs" then
    some (sl "hours")
  else if pyLower u = sl "day" then some (sl "days")
  else if pyLower u = sl "seconds" ∨ pyLower u = sl "minutes" ∨
      pyLower u = sl "hours" ∨ pyLower u = sl "days" then
    some (pyLower u)
  else none

/-- Model of `_UNIT_TO_DELTA` composed with `total_seconds`
(src/server.py lines 36-42): seconds per canonical unit name. -/
def unitToSeconds (u : List Char) : Option ℚ :=
  if u = sl "seconds" then some 1
  else if u = sl "minutes" then some 60
  else if u = sl "hours" then some 3600
  else if u = sl "days" then some 86400
  else none

/-- Error message used by the model of `parse_duration`. -/
def durationErrMsg : List Char := sl "Could not parse duration string"

/-- Model of `parse_duration` (src/server.py lines 115-146), with the
resulting `timedelta` rendered as its total seconds in `ℚ`: strip and
lower-case; a bare integer is minutes; otherwise the first token is a
float amount and the second a time unit, all other tokens being ignored. -/
def parseDuration (s : List Char) : Except (List Char) ℚ :=
  match parsePyInt (pyLower (pyStrip s)) with
  | some n => .ok (60 * (n : ℚ))
  | none =>
    match splitWs (pyLower (pyStrip s)) with
    | [] => .error durationErrMsg
    | [_] => .error durationErrMsg
    | p0 :: p1 :: _ =>
      match parsePyFloat p0 with
      | none => .error durationErrMsg
      | some amount =>
        match normalizeTimeUnit p1 with
        | none => .error durationErrMsg
        | some u =>
          match unitToSeconds u with
          | none => .error durationErrMsg
          | some k => .ok (amount * k)

/-- Error message of `validate_norad_id` (src/validation.py line 27). -/
def noradRangeMsg : List Char := sl "NORAD ID must be between 1 and 99999"

/-- Model of `validate_norad_id` (src/validation.py lines 7-30) on an
integer input: accept exactly the range 1 to 99999. -/
def validateNoradId (n : ℤ) : Except (List Char) ℤ :=
  if n < 1 ∨ 99999 < n then .error noradRangeMsg else .ok n

/-- Error message of the TLE shape checks in `validate_tle_format`. -/
def tleFormatMsg : List Char := sl "Invalid TLE format"

/-- Model of `validate_tle_format` (src/validation.py lines 33-69): strip
both lines, require length at least 69, the leading tags, and a decimal
digit as final character of each line; return the stripped lines. -/
def validateTleFormat (l1 l2 : List Char) : Except (List Char) (List Char × List Char) :=
  if (pyStrip l1).length < 69 then .error tleFormatMsg
  else if (pyStrip l2).length < 69 then .error tleFormatMsg
  else if ¬ startsWith (pyStrip l1) (sl "1 ") = true then .error tleFormatMsg
  else if ¬ startsWith (pyStrip l2) (sl "2 ") = true then .error tleFormatMsg
  else
    match (pyStrip l1).getLast?, (pyStrip l2).getLast? with
    | some ca, some cb =>
      if ca.isDigit ∧ cb.isDigit then .ok (pyStrip l1, pyStrip l2)
      else .error tleFormatMsg
    | _, _ => .error tleFormatMsg

/-- Model of `get_norad_id` (src/celestrak_client.py lines 70-93): parse
the identifier as an integer and use it directly; only on parse failure
consult the external name search (`search`, the first match of
`search_satellites_by_name`, `none` when it returns no results). -/
def getNoradId (search : List Char → Option ℤ) (ident : List Char) : Option ℤ :=
  match parsePyInt ident with
  | some n => some n
  | none => search ident

/-- Model of `fetch_tle` (src/celestrak_client.py lines 96-170) with the
network interaction abstracted: `raw` yields the two candidate element
lines of the HTTP response (or a fetch error), which are then validated
by `validate_tle_format` after `validate_norad_id` has checked the id. -/
def fetchTle (raw : ℤ → Except (List Char) (List Char × List Char)) (n : ℤ) :
    Except (List Char) (List Char × List Char) := do
  let m ← validateNoradId n
  let lines ← raw m
  validateTleFormat lines.1 lines.2

/-- Result record of `get_satellite_info`. -/
structure SatInfo where
  norad_id : ℤ
  name : List Char
  tle_line1 : List Char
  tle_line2 : List Char
deriving DecidableEq

/-- Name extraction of `get_satellite_info`
(src/celestrak_client.py line 224): the trimmed characters of Python
slice `line1[2:23]` when the line is longer than 23 characters, the
placeholder otherwise. -/
def extractName (l1 : List Char) : List Char :=
  if 23 < l1.length then pyStrip ((l1.drop 2).take 21) else sl "Unknown"

/-- Error message of the resolution failure in `get_satellite_info`. -/
def resolveErrMsg : List Char := sl "Could not resolve satellite identifier to NORAD ID"

/-- Model of `get_satellite_info` (src/celestrak_client.py lines
201-232): resolve the identifier, fail when resolution yields nothing,
then fetch and validate the element lines and assemble the info record. -/
def getSatelliteInfo (search : List Char → Option ℤ)
    (raw : ℤ → Except (List Char) (List Char × List Char)) (ident : List Char) :
    Except (List Char) SatInfo :=
  match getNoradId search ident with
  | none => .error resolveErrMsg
  | some n => do
    let lines ← fetchTle raw n
    .ok ⟨n, extractName lines.1, lines.1, lines.2⟩

/-- Claim C8: an identifier that parses as an integer is used as the
catalog id directly, independently of the catalog search; an identifier
that neither parses nor matches the name search makes
`get_satellite_info` fail with a resolution error. -/
theorem c8_identity_resolution (ident : List Char) :
    (∀ n : ℤ, parsePyInt ident = some n →
      ∀ search : List Char → Option ℤ, getNoradId search ident = some n) ∧
    (parsePyInt ident = none →
      ∀ (search : List Char → Option ℤ)
        (raw : ℤ → Except (List Char) (List Char × List Char)),
        search ident = none → getSatelliteInfo search raw ident = .error resolveErrMsg) := by
  constructor
  · intro n hn search
    rw [getNoradId, hn]
  · intro hn search raw hs
    rw [getSatelliteInfo, getNoradId, hn, hs]

/-- Witness for C8: the numeric identifier 25544 resolves directly and a
non-numeric identifier with no search match produces a resolution error. -/
theorem c8_identity_resolution_witness :
    getNoradId (fun _ => none) (sl "25544") = some 25544 ∧
    getSatelliteInfo (fun _ => none) (fun _ => .error []) (sl "iss") =
      .error resolveErrMsg := by
  constructor
  · exact (c8_identity_resolution (sl "25544")).1 25544 (by decide) (fun _ => none)
  · exact (c8_identity_resolution (sl "iss")).2 (by decide) (fun _ => none)
      (fun _ => .error []) rfl

/-- Modelled from the spec: the display name as "a fixed character slice
(positions 3-23, inclusive-exclusive as conventional for this element
format) of element line 1, trimmed" — with 1-based column positions and
an exclusive upper end this is the twenty characters at 0-based indices
2 through 21. -/
def specNameSlice (l1 : List Char) : List Char := pyStrip ((l1.drop 2).take 20)

/-- Claim C9 (amended): with an integer identifier in catalog range whose
fetch yields two syntactically valid element lines, `get_satellite_info`
returns that id together with the trimmed 21-character slice
`line1[2:23]` (1-based columns 3 through 23 inclusive) of the stripped
element line 1 as the name. -/
theorem c9_satellite_info_name (ident : List Char) (n : ℤ)
    (search : List Char → Option ℤ)
    (raw : ℤ → Except (List Char) (List Char × List Char))
    (l1 l2 : List Char) (ca cb : Char)
    (hn : parsePyInt ident = some n) (hlo : 1 ≤ n) (hhi : n ≤ 99999)
    (hraw : raw n = .ok (l1, l2))
    (h69a : 69 ≤ (pyStrip l1).length) (h69b : 69 ≤ (pyStrip l2).length)
    (htag1 : startsWith (pyStrip l1) (sl "1 ") = true)
    (htag2 : startsWith (pyStrip l2) (sl "2 ") = true)
    (hca : (pyStrip l1).getLast? = some ca) (hcad : ca.isDigit = true)
    (hcb : (pyStrip l2).getLast? = some cb) (hcbd : cb.isDigit = true) :
    getSatelliteInfo search raw ident =
      .ok ⟨n, pyStrip (((pyStrip l1).drop 2).take 21), pyStrip l1, pyStrip l2⟩ := by
  have hv : validateNoradId n = .ok n := by
    rw [validateNoradId, if_neg (by omega)]
  have htle : validateTleFormat l1 l2 = .ok (pyStrip l1, pyStrip l2) := by
    rw [validateTleFormat, if_neg (by omega), if_neg (by omega),
      if_neg (not_not_intro htag1), if_neg (not_not_intro htag2), hca, hcb]
    exact if_pos ⟨hcad, hcbd⟩
  have hfetch : fetchTle raw n = .ok (pyStrip l1, pyStrip l2) := by
    rw [fetchTle]
    simp only [hv, hraw, htle, bind, Except.bind]
  rw [getSatelliteInfo, getNoradId, hn]
  simp only [hfetch, bind, Except.bind]
  rw [extractName, if_pos (by omega)]

/-- Concrete element line 1 used to separate the two candidate name
slices: columns 3 through 23 hold the letters A through U. -/
def tleLine1Sample : List Char :=
  sl "1 ABCDEFGHIJKLMNOPQRSTUXXXXXXXXXXXXXXXXXXXXXXXXXXXXXXXXXXXXXXXXXXXXX7"

/-- Concrete element line 2 matching `tleLine1Sample`. -/
def tleLine2Sample : List Char :=
  sl "2 XXXXXXXXXXXXXXXXXXXXXXXXXXXXXXXXXXXXXXXXXXXXXXXXXXXXXXXXXXXXXXXXXX5"

/-- Counterexample for C9 as stated: on syntactically valid element lines
the produced name is the 21-character slice `line1[2:23]`, which differs
from the trimmed twenty-character slice at positions 3-23
inclusive-exclusive that the claim names. -/
theorem c9_satellite_info_name_counterexample :
    getSatelliteInfo (fun _ => none) (fun _ => .ok (tleLine1Sample, tleLine2Sample))
        (sl "25544") =
      .ok ⟨25544, sl "ABCDEFGHIJKLMNOPQRSTU", tleLine1Sample, tleLine2Sample⟩ ∧
    sl "ABCDEFGHIJKLMNOPQRSTU" ≠ specNameSlice tleLine1Sample := by
  constructor
  · rfl
  · decide

/-- Witness for C9 at the concrete identifier 25544 and the sample lines. -/
theorem c9_satellite_info_name_witness :
    getSatelliteInfo (fun _ => none) (fun _ => .ok (tleLine1Sample, tleLine2Sample))
        (sl "25544") =
      .ok ⟨25544, pyStrip (((pyStrip tleLine1Sample).drop 2).take 21),
        pyStrip tleLine1Sample, pyStrip tleLine2Sample⟩ :=
  c9_satellite_info_name (sl "25544") 25544 (fun _ => none)
    (fun _ => .ok (tleLine1Sample, tleLine2Sample)) tleLine1Sample tleLine2Sample
    '7' '5' (by decide) (by decide) (by decide) rfl (by decide) (by decide)
    (by decide) (by decide) (by decide) (by decide) (by decide) (by decide)

/-- Decimal rendering of a natural number. -/
def natToStr (n : ℕ) : List Char :=
  if n < 10 then [digitOf n] else natToStr (n / 10) ++ [digitOf (n % 10)]
termination_by n
decreasing_by omega

/-- Decimal rendering of an integer, the canonical form of "an integer
string". -/
def intToStr (n : ℤ) : List Char :=
  if n < 0 then '-' :: natToStr n.natAbs else natToStr n.natAbs

/-- Facts about a digit character below ten. -/
theorem digitOf_props (k : ℕ) (hk : k ≤ 9) :
    (digitOf k).isDigit = true ∧ charVal (digitOf k) = k ∧
    lowerChar (digitOf k) = digitOf k ∧ (digitOf k).isWhitespace = false ∧
    digitOf k ≠ '+' ∧ digitOf k ≠ '-' := by
  interval_cases k <;> refine ⟨rfl, rfl, by decide, rfl, by decide, by decide⟩

/-- Every character of a rendered natural number is a digit, is fixed by
lower-casing, and is neither whitespace nor a sign. -/
theorem natToStr_mem_props (n : ℕ) :
    ∀ c ∈ natToStr n, c.isDigit = true ∧ lowerChar c = c ∧
      c.isWhitespace = false ∧ c ≠ '+' ∧ c ≠ '-' := by
  induction n using Nat.strong_induction_on with
  | _ n ih =>
    intro c hc
    by_cases hn : n < 10
    · rw [natToStr, if_pos hn] at hc
      simp only [List.mem_singleton] at hc
      subst hc
      obtain ⟨h1, _, h3, h4, h5, h6⟩ := digitOf_props n (by omega)
      exact ⟨h1, h3, h4, h5, h6⟩
    · rw [natToStr, if_neg hn] at hc
      rcases List.mem_append.mp hc with hm | hm
      · exact ih (n / 10) (by omega) c hm
      · simp only [List.mem_singleton] at hm
        subst hm
        obtain ⟨h1, _, h3, h4, h5, h6⟩ := digitOf_props (n % 10) (by omega)
        exact ⟨h1, h3, h4, h5, h6⟩

/-- A rendered natural number is never the empty string. -/
theorem natToStr_ne_nil (n : ℕ) : natToStr n ≠ [] := by
  by_cases hn : n < 10
  · rw [natToStr, if_pos hn]
    exact List.cons_ne_nil _ _
  · rw [natToStr, if_neg hn]
    simp

/-- The digit parser recovers the rendered natural number. -/
theorem digitsVal_natToStr (n : ℕ) : digitsVal (natToStr n) = some n := by
  have hval : ∀ m : ℕ, natVal (natToStr m) = m := by
    intro m
    induction m using Nat.strong_induction_on with
    | _ m ih =>
      by_cases hm : m < 10
      · rw [natToStr, if_pos hm, natVal]
        simp only [List.foldl_cons, List.foldl_nil]
        rw [(digitOf_props m (by omega)).2.1]
        omega
      · rw [natToStr, if_neg hm, natVal, List.foldl_append]
        have h2 := ih (m / 10) (by omega)
        rw [natVal] at h2
        rw [h2]
        simp only [List.foldl_cons, List.foldl_nil]
        rw [(digitOf_props (m % 10) (by omega)).2.1]
        omega
  rw [digitsVal, if_pos, hval]
  refine ⟨natToStr_ne_nil n, ?_⟩
  rw [List.all_eq_true]
  intro c hc
  exact (natToStr_mem_props n c hc).1

/-- A whitespace-free string is fixed by stripping. -/
theorem pyStrip_eq_self (l : List Char) (h : ∀ c ∈ l, c.isWhitespace = false) :
    pyStrip l = l := by
  have hdrop : ∀ m : List Char, (∀ c ∈ m, c.isWhitespace = false) →
      m.dropWhile Char.isWhitespace = m := by
    intro m hm
    cases m with
    | nil => rfl
    | cons a t =>
      rw [List.dropWhile_cons, hm a (List.mem_cons_self a t)]
      simp
  rw [pyStrip, hdrop l h, hdrop l.reverse fun c hc => h c (List.mem_reverse.mp hc),
    List.reverse_reverse]

/-- A string whose characters are fixed by lower-casing is fixed by
`pyLower`. -/
theorem pyLower_eq_self (l : List Char) (h : ∀ c ∈ l, lowerChar c = c) :
    pyLower l = l := by
  rw [pyLower, List.map_congr_left h]
  exact List.map_id' l

/-- Characters of a rendered integer: the optional leading minus and
digits. -/
theorem intToStr_mem_props (n : ℤ) :
    ∀ c ∈ intToStr n, lowerChar c = c ∧ c.isWhitespace = false := by
  intro c hc
  rw [intToStr] at hc
  by_cases hn : n < 0
  · rw [if_pos hn] at hc
    rcases List.mem_cons.mp hc with hm | hm
    · subst hm
      exact ⟨by decide, rfl⟩
    · obtain ⟨_, h2, h3, _, _⟩ := natToStr_mem_props n.natAbs c hm
      exact ⟨h2, h3⟩
  · rw [if_neg hn] at hc
    obtain ⟨_, h2, h3, _, _⟩ := natToStr_mem_props n.natAbs c hc
    exact ⟨h2, h3⟩

/-- The integer parser recovers the rendered integer. -/
theorem intCore_intToStr (n : ℤ) : intCore (intToStr n) = some n := by
  by_cases hn : n < 0
  · rw [intToStr, if_pos hn, intCore]
    rw [if_neg (by decide), if_pos rfl, digitsVal_natToStr]
    simp only [Option.map_some']
    congr 1
    omega
  · rw [intToStr, if_neg hn]
    obtain ⟨c, cs, hcons⟩ : ∃ c cs, natToStr n.natAbs = c :: cs := by
      cases hd : natToStr n.natAbs with
      | nil => exact absurd hd (natToStr_ne_nil _)
      | cons c cs => exact ⟨c, cs, rfl⟩
    obtain ⟨_, _, _, h4, h5⟩ := natToStr_mem_props n.natAbs c
      (hcons ▸ List.mem_cons_self c cs)
    rw [hcons, intCore, if_neg h4, if_neg h5, ← hcons, digitsVal_natToStr]
    simp only [Option.map_some']
    congr 1
    omega

/-- The full Python `int()` model recovers the rendered integer. -/
theorem parsePyInt_intToStr (n : ℤ) : parsePyInt (intToStr n) = some n := by
  rw [parsePyInt, pyStrip_eq_self _ fun c hc => (intToStr_mem_props n c hc).2,
    intCore_intToStr]

/-- A character whose code point is none of the four ASCII whitespace
codes is not whitespace. -/
theorem ws_false_of_toNat (c : Char) (h1 : c.toNat ≠ 32) (h2 : c.toNat ≠ 9)
    (h3 : c.toNat ≠ 13) (h4 : c.toNat ≠ 10) : c.isWhitespace = false := by
  simp only [Char.isWhitespace, Bool.or_eq_false_iff, decide_eq_false_iff_not]
  refine ⟨⟨⟨?_, ?_⟩, ?_⟩, ?_⟩ <;> intro hc <;> subst hc
  · exact h1 rfl
  · exact h2 rfl
  · exact h3 rfl
  · exact h4 rfl

/-- Code point of a lower-cased upper-case letter. -/
theorem toNat_lowerChar (c : Char) (h : 'A' ≤ c ∧ c ≤ 'Z') :
    (lowerChar c).toNat = c.toNat + 32 := by
  have hZ : c.toNat ≤ 90 := by
    have := h.2
    rw [Char.le_def] at this
    exact this
  have hvalid : (c.toNat + 32).isValidChar := by
    left
    omega
  rw [lowerChar, if_pos h]
  unfold Char.ofNat
  rw [dif_pos hvalid]
  rfl

/-- Lower-casing is idempotent. -/
theorem lowerChar_idem (c : Char) : lowerChar (lowerChar c) = lowerChar c := by
  by_cases h : 'A' ≤ c ∧ c ≤ 'Z'
  · have hA : 65 ≤ c.toNat := by
      have := h.1
      rw [Char.le_def] at this
      exact this
    have htn := toNat_lowerChar c h
    rw [show lowerChar (lowerChar c) = lowerChar (lowerChar c) from rfl]
    conv_lhs => rw [lowerChar]
    rw [if_neg]
    intro hc
    have hup : (lowerChar c).toNat ≤ 90 := by
      have := hc.2
      rw [Char.le_def] at this
      exact this
    omega
  · have hc : lowerChar c = c := by rw [lowerChar, if_neg h]
    rw [hc, hc]

/-- Lower-casing never creates whitespace. -/
theorem lowerChar_ws_false (c : Char) (h : c.isWhitespace = false) :
    (lowerChar c).isWhitespace = false := by
  by_cases hu : 'A' ≤ c ∧ c ≤ 'Z'
  · have hA : 65 ≤ c.toNat := by
      have := hu.1
      rw [Char.le_def] at this
      exact this
    have htn := toNat_lowerChar c hu
    exact ws_false_of_toNat _ (by omega) (by omega) (by omega) (by omega)
  · rw [lowerChar, if_neg hu]
    exact h

/-- Lower-casing a string is idempotent. -/
theorem pyLower_idem (l : List Char) : pyLower (pyLower l) = pyLower l := by
  rw [pyLower, pyLower, List.map_map]
  exact List.map_congr_left fun c _ => lowerChar_idem c

/-- A take-while over an everywhere-true prefix stops at the first
falsifying element. -/
theorem takeWhile_append_of (p : Char → Bool) (a : List Char) (x : Char)
    (b : List Char) (ha : ∀ c ∈ a, p c = true) (hx : p x = false) :
    (a ++ x :: b).takeWhile p = a := by
  induction a with
  | nil =>
    rw [List.nil_append, List.takeWhile_cons, hx]
    rfl
  | cons c t ih =>
    rw [List.cons_append, List.takeWhile_cons, ha c (List.mem_cons_self c t),
      ih fun d hd => ha d (List.mem_cons_of_mem c hd)]
    simp

/-- The matching drop-while skips exactly the same prefix. -/
theorem dropWhile_append_of (p : Char → Bool) (a : List Char) (x : Char)
    (b : List Char) (ha : ∀ c ∈ a, p c = true) (hx : p x = false) :
    (a ++ x :: b).dropWhile p = x :: b := by
  induction a with
  | nil =>
    rw [List.nil_append, List.dropWhile_cons, hx]
    rfl
  | cons c t ih =>
    rw [List.cons_append, List.dropWhile_cons, ha c (List.mem_cons_self c t)]
    simp only [if_pos rfl]
    exact ih fun d hd => ha d (List.mem_cons_of_mem c hd)

/-- A list all of whose elements satisfy the predicate is its own
take-while. -/
theorem takeWhile_eq_self_of (p : Char → Bool) (l : List Char)
    (h : ∀ c ∈ l, p c = true) : l.takeWhile p = l := by
  induction l with
  | nil => rfl
  | cons c t ih =>
    rw [List.takeWhile_cons, h c (List.mem_cons_self c t),
      ih fun d hd => h d (List.mem_cons_of_mem c hd)]
    simp

/-- A list all of whose elements satisfy the predicate drops to nothing. -/
theorem dropWhile_eq_nil_of (p : Char → Bool) (l : List Char)
    (h : ∀ c ∈ l, p c = true) : l.dropWhile p = [] := by
  induction l with
  | nil => rfl
  | cons c t ih =>
    rw [List.dropWhile_cons, h c (List.mem_cons_self c t)]
    simp only [if_pos rfl]
    exact ih fun d hd => h d (List.mem_cons_of_mem c hd)

/-- A single whitespace-free token splits to itself. -/
theorem splitWs_token (b : List Char) (hb : b ≠ [])
    (hnb : ∀ c ∈ b, c.isWhitespace = false) : splitWs b = [b] := by
  obtain ⟨c, t, rfl⟩ := List.exists_cons_of_ne_nil hb
  rw [splitWs, if_neg (by simp [hnb c (List.mem_cons_self c t)]),
    takeWhile_eq_self_of _ _ (fun d hd => by simp [hnb d hd]),
    dropWhile_eq_nil_of _ _ (fun d hd => by simp [hnb d hd]), splitWs]

/-- Two whitespace-free tokens joined by a single blank split into the
token pair. -/
theorem splitWs_pair (a b : List Char) (ha : a ≠ [])
    (hna : ∀ c ∈ a, c.isWhitespace = false) (hb : b ≠ [])
    (hnb : ∀ c ∈ b, c.isWhitespace = false) : splitWs (a ++ ' ' :: b) = [a, b] := by
  obtain ⟨c, t, rfl⟩ := List.exists_cons_of_ne_nil ha
  rw [List.cons_append, splitWs, if_neg (by simp [hna c (List.mem_cons_self c t)]),
    show c :: (t ++ ' ' :: b) = (c :: t) ++ ' ' :: b from rfl,
    takeWhile_append_of _ _ _ _ (fun d hd => by simp [hna d hd]) (by simp),
    dropWhile_append_of _ _ _ _ (fun d hd => by simp [hna d hd]) (by simp),
    splitWs, if_pos (by simp), splitWs_token b hb hnb]

/-- A list whose first and last characters are not whitespace is fixed by
stripping. -/
theorem pyStrip_fix (l : List Char) (hl : l ≠ [])
    (hh : ∀ c ∈ l.head?, c.isWhitespace = false)
    (hlast : ∀ c ∈ l.getLast?, c.isWhitespace = false) : pyStrip l = l := by
  obtain ⟨c, t, rfl⟩ := List.exists_cons_of_ne_nil hl
  have hc : c.isWhitespace = false := hh c (by simp)
  rw [pyStrip, List.dropWhile_cons, hc]
  simp only [Bool.false_eq_true, if_false]
  cases hrev : (c :: t).reverse with
  | nil => simp at hrev
  | cons d r =>
    have hd : (c :: t).getLast? = some d := by
      rw [← List.head?_reverse, hrev]
      rfl
    have hdw : d.isWhitespace = false := hlast d (by rw [hd]; rfl)
    rw [List.dropWhile_cons, hdw]
    simp only [Bool.false_eq_true, if_false]
    rw [← hrev, List.reverse_reverse]

/-- The digit fold recovers the rendered natural number. -/
theorem natVal_natToStr (n : ℕ) : natVal (natToStr n) = n := by
  have h := digitsVal_natToStr n
  have hcond : natToStr n ≠ [] ∧ (natToStr n).all Char.isDigit = true :=
    ⟨natToStr_ne_nil n, by
      rw [List.all_eq_true]
      intro c hc
      exact (natToStr_mem_props n c hc).1⟩
  rw [digitsVal, if_pos hcond] at h
  exact Option.some.inj h

/-- The float core accepts a pure digit string as its integral part. -/
theorem floatCore_all_digits (l : List Char) (hne : l ≠ [])
    (hd : ∀ c ∈ l, c.isDigit = true) : floatCore l = some ((natVal l : ℕ) : ℚ) := by
  have h1 : l.dropWhile Char.isDigit = [] := dropWhile_eq_nil_of _ _ hd
  have h2 : l.takeWhile Char.isDigit = l := takeWhile_eq_self_of _ _ hd
  unfold floatCore
  simp only [h1, h2]
  rw [if_neg hne]

/-- The float parser recovers a rendered negative integer. -/
theorem parsePyFloat_neg_intToStr (m : ℤ) (hm : m < 0) :
    parsePyFloat (intToStr m) = some ((m : ℤ) : ℚ) := by
  have hstrip : pyStrip (intToStr m) = intToStr m :=
    pyStrip_eq_self _ fun c hc => (intToStr_mem_props m c hc).2
  have hcons : intToStr m = '-' :: natToStr m.natAbs := by rw [intToStr, if_pos hm]
  have hfc : floatCore (natToStr m.natAbs) = some ((natVal (natToStr m.natAbs) : ℕ) : ℚ) :=
    floatCore_all_digits _ (natToStr_ne_nil _)
      fun c hc => (natToStr_mem_props _ c hc).1
  rw [parsePyFloat, hstrip, hcons]
  simp only [hfc, natVal_natToStr]
  rw [if_pos trivial]
  simp only [Option.map_some']
  rw [if_neg (by decide), Option.some.injEq, Int.cast_natAbs, abs_of_nonpos hm.le]
  push_cast
  ring

/-- Every seconds-per-unit entry of the unit table is positive. -/
theorem unitToSeconds_pos (u : List Char) (k : ℚ) (h : unitToSeconds u = some k) :
    0 < k := by
  rw [unitToSeconds] at h
  split_ifs at h <;>
    first
    | (simp only [Option.some.injEq] at h
       subst h
       norm_num)
    | exact absurd h (by simp)

/-- Unit normalization ignores a preliminary lower-casing. -/
theorem normalizeTimeUnit_pyLower (u : List Char) :
    normalizeTimeUnit (pyLower u) = normalizeTimeUnit u := by
  rw [normalizeTimeUnit, normalizeTimeUnit, pyLower_idem]

/-- A rendered integer is never the empty string. -/
theorem intToStr_ne_nil (m : ℤ) : intToStr m ≠ [] := by
  rw [intToStr]
  split
  · exact List.cons_ne_nil _ _
  · exact natToStr_ne_nil _

/-- A negative rendered integer joined to a whitespace-free token by one
blank is fixed by stripping. -/
theorem pyStrip_pair_fix (m : ℤ) (hm : m < 0) (w : List Char)
    (hwne : w ≠ []) (hw : ∀ c ∈ w, c.isWhitespace = false) :
    pyStrip (intToStr m ++ ' ' :: w) = intToStr m ++ ' ' :: w := by
  have hcons : intToStr m = '-' :: natToStr m.natAbs := by rw [intToStr, if_pos hm]
  refine pyStrip_fix _ (by simp [intToStr_ne_nil m]) ?_ ?_
  · intro c hc
    rw [hcons, List.cons_append, List.head?_cons] at hc
    simp only [Option.mem_def, Option.some.injEq] at hc
    subst hc
    rfl
  · intro c hc
    rw [List.getLast?_append_of_ne_nil _ (List.cons_ne_nil ' ' w)] at hc
    obtain ⟨d, t, rfl⟩ := List.exists_cons_of_ne_nil hwne
    rw [List.getLast?_cons_cons, List.getLast?_eq_getLast _ (List.cons_ne_nil d t)] at hc
    simp only [Option.mem_def, Option.some.injEq] at hc
    subst hc
    exact hw _ (List.getLast_mem _)

/-- The integer parser rejects a two-token text. -/
theorem parsePyInt_pair_none (m : ℤ) (hm : m < 0) (w : List Char)
    (hwne : w ≠ []) (hw : ∀ c ∈ w, c.isWhitespace = false) :
    parsePyInt (intToStr m ++ ' ' :: w) = none := by
  have hcons : intToStr m = '-' :: natToStr m.natAbs := by rw [intToStr, if_pos hm]
  have hstrip := pyStrip_pair_fix m hm w hwne hw
  rw [parsePyInt, hstrip, hcons, List.cons_append, intCore,
    if_neg (by decide), if_pos rfl]
  have hdv : digitsVal (natToStr m.natAbs ++ ' ' :: w) = none := by
    rw [digitsVal, if_neg]
    intro hcond
    have hall := hcond.2
    rw [List.all_eq_true] at hall
    have := hall ' ' (List.mem_append_right _ (List.mem_cons_self ' ' w))
    simp at this
  rw [hdv]
  rfl

/-- Claim C10: `parse_duration` accepts any integer string (including zero
and negatives) as that many minutes, accepts a negative amount with a
recognized unit as the corresponding negative duration, and non-positive
step values are rejected only later, by `validate_step_interval`. -/
theorem c10_parse_duration_nonpositive :
    (∀ m : ℤ, parseDuration (intToStr m) = .ok (60 * (m : ℚ))) ∧
    (∀ (m : ℤ) (u nu : List Char) (k : ℚ), m < 0 → u ≠ [] →
      (∀ c ∈ u, c.isWhitespace = false) →
      normalizeTimeUnit u = some nu → unitToSeconds nu = some k →
      parseDuration (intToStr m ++ ' ' :: u) = .ok ((m : ℚ) * k) ∧ (m : ℚ) * k < 0) ∧
    (∀ q : ℚ, q ≤ 0 → validateStepInterval q 1 3600 = .error stepSmallMsg) := by
  refine ⟨?_, ?_, ?_⟩
  · intro m
    have hs : pyStrip (intToStr m) = intToStr m :=
      pyStrip_eq_self _ fun c hc => (intToStr_mem_props m c hc).2
    have hl : pyLower (intToStr m) = intToStr m :=
      pyLower_eq_self _ fun c hc => (intToStr_mem_props m c hc).1
    rw [parseDuration, hs, hl, parsePyInt_intToStr]
  · intro m u nu k hm hu hnw hnu hk
    have hw : ∀ c ∈ pyLower u, c.isWhitespace = false := by
      intro c hc
      rw [pyLower] at hc
      obtain ⟨d, hd, rfl⟩ := List.mem_map.mp hc
      exact lowerChar_ws_false d (hnw d hd)
    have hwne : pyLower u ≠ [] := by
      intro h
      exact hu (List.map_eq_nil_iff.mp h)
    have hs : pyStrip (intToStr m ++ ' ' :: u) = intToStr m ++ ' ' :: u :=
      pyStrip_pair_fix m hm u hu hnw
    have hpl : pyLower (pyStrip (intToStr m ++ ' ' :: u)) =
        intToStr m ++ ' ' :: pyLower u := by
      rw [hs, pyLower, List.map_append, List.map_cons]
      have h1 : List.map lowerChar (intToStr m) = intToStr m :=
        pyLower_eq_self _ fun c hc => (intToStr_mem_props m c hc).1
      rw [h1]
      rfl
    have hint : parsePyInt (intToStr m ++ ' ' :: pyLower u) = none :=
      parsePyInt_pair_none m hm _ hwne hw
    have hsplit : splitWs (intToStr m ++ ' ' :: pyLower u) =
        [intToStr m, pyLower u] :=
      splitWs_pair _ _ (intToStr_ne_nil m)
        (fun c hc => (intToStr_mem_props m c hc).2) hwne hw
    have hfl : parsePyFloat (intToStr m) = some ((m : ℤ) : ℚ) :=
      parsePyFloat_neg_intToStr m hm
    have hnu2 : normalizeTimeUnit (pyLower u) = some nu := by
      rw [normalizeTimeUnit_pyLower]
      exact hnu
    constructor
    · simp only [parseDuration, hpl, hint, hsplit, hfl, hnu2, hk]
    · have hk0 := unitToSeconds_pos nu k hk
      have hm0 : ((m : ℤ) : ℚ) < 0 := by exact_mod_cast hm
      exact mul_neg_of_neg_of_pos hm0 hk0
  · intro q hq
    rw [validateStepInterval, if_pos (by linarith)]

/-- Witness for C10: minus ninety minutes, minus two hours, and a
non-positive step rejected by the validator. -/
theorem c10_parse_duration_nonpositive_witness :
    parseDuration (intToStr (-90)) = .ok (60 * ((-90 : ℤ) : ℚ)) ∧
    parseDuration (intToStr (-2) ++ ' ' :: sl "hours") =
      .ok (((-2 : ℤ) : ℚ) * 3600) ∧
    validateStepInterval (-5) 1 3600 = .error stepSmallMsg := by
  refine ⟨c10_parse_duration_nonpositive.1 (-90), ?_, ?_⟩
  · exact (c10_parse_duration_nonpositive.2.1 (-2) (sl "hours") (sl "hours") 3600
      (by norm_num) (by decide) (by decide) (by decide) (by decide)).1
  · exact c10_parse_duration_nonpositive.2.2 (-5) (by norm_num)

/-- Earth radius in meters (`EARTH_RADIUS_M`, src/tatc_integration.py). -/
noncomputable def earthRadius : ℝ := 6371000

/-- Model of Python `a % b` over the reals (result has the sign of the
divisor). -/
noncomputable def pymodR (a b : ℝ) : ℝ := a - b * ⌊a / b⌋

/-- Model of `math.asin`: defined on `[-1, 1]`, raising a math domain
error (`none`) outside. -/
noncomputable def pyAsin (x : ℝ) : Option ℝ :=
  if -1 ≤ x ∧ x ≤ 1 then some (Real.arcsin x) else none

/-- Model of `_calculate_circular_footprint`
(src/tatc_integration.py lines 192-239): half-angle from the optional
field of view (default 60 degrees), surface radius via the arcsine
formula when the altitude is positive, then 16 equally spaced angles plus
a closing 17th vertex, each latitude clamped to `[-90, 90]` and each
longitude wrapped into `[-180, 180]`; `none` models the `ValueError`
raised when the arcsine argument leaves its domain. -/
noncomputable def circularFootprint (latDeg lonDeg altM : ℝ) (fovOpt : Option ℝ) :
    Option (List (List ℝ)) :=
  let fov := fovOpt.getD 60
  let fovRad := fov / 2 * Real.pi / 180
  let rOpt :=
    if 0 < altM then
      (pyAsin ((earthRadius + altM) * Real.sin fovRad / earthRadius)).map
        fun a => a - fovRad
    else some fovRad
  rOpt.map fun rRad =>
    let rDeg := rRad * 180 / Real.pi
    (List.range 17).map fun (i : ℕ) =>
      let angle := 2 * Real.pi * (i : ℝ) / 16
      let dlat := rDeg * Real.cos angle
      let dlon := rDeg * Real.sin angle / Real.cos (latDeg * Real.pi / 180)
      [pymodR (lonDeg + dlon + 180) 360 - 180,
        max (-90) (min 90 (latDeg + dlat))]

/-- The real Python modulus lies in `[0, b)` for positive `b`. -/
theorem pymodR_mem (a b : ℝ) (hb : 0 < b) : 0 ≤ pymodR a b ∧ pymodR a b < b := by
  have heq : pymodR a b = b * Int.fract (a / b) := by
    rw [pymodR, Int.fract]
    field_simp
  have h0 := Int.fract_nonneg (a / b)
  have h1 := Int.fract_lt_one (a / b)
  constructor
  · rw [heq]
    positivity
  · rw [heq]
    nlinarith

/-- Claim C7 (amended): whenever the arcsine argument stays within its
domain (in particular whenever the altitude is not positive, and for the
default 60-degree field of view whenever
`(R + alt) * sin(30°) ≤ R`), the circular footprint is a ring of exactly
17 vertices whose closing vertex replicates the first, every latitude
clamped to `[-90, 90]` and every longitude wrapped into `[-180, 180]`;
outside that domain the calculator raises a math domain error instead. -/
theorem c7_circular_footprint (latDeg lonDeg altM : ℝ)
    (hdom : 0 < altM →
      (earthRadius + altM) * Real.sin (60 / 2 * Real.pi / 180) / earthRadius ≤ 1) :
    (circularFootprint latDeg lonDeg altM none).isSome = true ∧
    ∀ r, circularFootprint latDeg lonDeg altM none = some r →
      r.length = 17 ∧ r.getLast? = r.head? ∧
      ∀ v ∈ r, ∃ lo la, v = [lo, la] ∧
        -180 ≤ lo ∧ lo ≤ 180 ∧ -90 ≤ la ∧ la ≤ 90 := by
  have hpi : (0 : ℝ) < Real.pi := Real.pi_pos
  have hfov : (60 : ℝ) / 2 * Real.pi / 180 = Real.pi / 6 := by ring
  have hrad : (0 : ℝ) < earthRadius := by rw [earthRadius]; norm_num
  have hasin : 0 < altM →
      pyAsin ((earthRadius + altM) * Real.sin (60 / 2 * Real.pi / 180) / earthRadius)
        = some (Real.arcsin
          ((earthRadius + altM) * Real.sin (60 / 2 * Real.pi / 180) / earthRadius)) := by
    intro halt
    rw [pyAsin, if_pos]
    refine ⟨?_, hdom halt⟩
    have hs : 0 ≤ Real.sin (60 / 2 * Real.pi / 180) := by
      rw [hfov]
      apply Real.sin_nonneg_of_nonneg_of_le_pi
      · positivity
      · nlinarith
    have : 0 ≤ (earthRadius + altM) * Real.sin (60 / 2 * Real.pi / 180) / earthRadius := by
      positivity
    linarith
  have hsome : (circularFootprint latDeg lonDeg altM none).isSome = true := by
    rw [circularFootprint]
    simp only [Option.getD_some, Option.getD_none]
    by_cases halt : 0 < altM
    · rw [if_pos halt, hasin halt]
      rfl
    · rw [if_neg halt]
      rfl
  refine ⟨hsome, ?_⟩
  intro r hr
  obtain ⟨rRad, hrad2, hmap⟩ : ∃ rr,
      (if 0 < altM then
        (pyAsin ((earthRadius + altM) *
          Real.sin ((none : Option ℝ).getD 60 / 2 * Real.pi / 180) / earthRadius)).map
          (fun a => a - (none : Option ℝ).getD 60 / 2 * Real.pi / 180)
      else some ((none : Option ℝ).getD 60 / 2 * Real.pi / 180)) = some rr ∧
      r = (List.range 17).map fun (i : ℕ) =>
        [pymodR (lonDeg + rr * 180 / Real.pi * Real.sin (2 * Real.pi * (i : ℝ) / 16) /
            Real.cos (latDeg * Real.pi / 180) + 180) 360 - 180,
          max (-90) (min 90 (latDeg + rr * 180 / Real.pi *
            Real.cos (2 * Real.pi * (i : ℝ) / 16)))] := by
    rw [circularFootprint] at hr
    simp only at hr
    cases hopt : (if 0 < altM then
        (pyAsin ((earthRadius + altM) *
          Real.sin ((none : Option ℝ).getD 60 / 2 * Real.pi / 180) / earthRadius)).map
          (fun a => a - (none : Option ℝ).getD 60 / 2 * Real.pi / 180)
      else some ((none : Option ℝ).getD 60 / 2 * Real.pi / 180)) with
    | none =>
      rw [hopt] at hr
      exact absurd hr (by simp)
    | some rr =>
      rw [hopt] at hr
      simp only [Option.map_some', Option.some.injEq] at hr
      exact ⟨rr, rfl, hr.symm⟩
  subst hmap
  refine ⟨by simp, ?_, ?_⟩
  · rw [List.getLast?_map, List.head?_map]
    rw [show List.range 17 = List.range 16 ++ [16] from by decide,
      List.getLast?_concat]
    rw [show (List.range 16 ++ [16] : List ℕ).head? = some 0 from by decide]
    simp only [Option.map_some', Option.some.injEq]
    have hc1 : Real.cos (2 * Real.pi * (16 : ℕ) / 16) = Real.cos 0 := by
      push_cast
      rw [show (2 : ℝ) * Real.pi * 16 / 16 = 2 * Real.pi by ring, Real.cos_two_pi,
        Real.cos_zero]
    have hs1 : Real.sin (2 * Real.pi * (16 : ℕ) / 16) = Real.sin 0 := by
      push_cast
      rw [show (2 : ℝ) * Real.pi * 16 / 16 = 2 * Real.pi by ring, Real.sin_two_pi,
        Real.sin_zero]
    rw [hc1, hs1]
    norm_num
  · intro v hv
    rw [List.mem_map] at hv
    obtain ⟨i, _, rfl⟩ := hv
    refine ⟨_, _, rfl, ?_, ?_, ?_, ?_⟩
    · have := (pymodR_mem (lonDeg + rRad * 180 / Real.pi *
        Real.sin (2 * Real.pi * i / 16) / Real.cos (latDeg * Real.pi / 180) + 180)
        360 (by norm_num)).1
      linarith
    · have := (pymodR_mem (lonDeg + rRad * 180 / Real.pi *
        Real.sin (2 * Real.pi * i / 16) / Real.cos (latDeg * Real.pi / 180) + 180)
        360 (by norm_num)).2
      linarith
    · exact le_max_left _ _
    · exact max_le (by norm_num) (min_le_left _ _)

/-- Witness for C7 at ground level over the origin. -/
theorem c7_circular_footprint_witness :
    (circularFootprint 0 0 0 none).isSome = true :=
  (c7_circular_footprint 0 0 0 (fun h => absurd h (by norm_num))).1

/-- Counterexample for C7 as stated: at twice the Earth radius the
default-field-of-view arcsine argument is `3 / 2`, outside the arcsine
domain, so the calculator raises a math domain error and no ring of 17
vertices is produced. -/
theorem c7_circular_footprint_counterexample :
    circularFootprint 0 0 (2 * earthRadius) none = none := by
  have hrad : (0 : ℝ) < earthRadius := by rw [earthRadius]; norm_num
  have hfov : (60 : ℝ) / 2 * Real.pi / 180 = Real.pi / 6 := by ring
  have harg : (earthRadius + 2 * earthRadius) *
      Real.sin (60 / 2 * Real.pi / 180) / earthRadius = 3 / 2 := by
    rw [hfov, Real.sin_pi_div_six]
    field_simp
    ring
  rw [circularFootprint]
  simp only [Option.getD_none]
  rw [if_pos (by positivity), harg, pyAsin, if_neg (by norm_num)]
  rfl

/-- Field record of a Python `datetime` (UTC, no time-zone member: naive
values are interpreted as UTC by the formatter, matching the pipeline
which only ever passes naive UTC instants). -/
structure PyDateTime where
  year : ℕ
  month : ℕ
  day : ℕ
  hour : ℕ
  minute : ℕ
  second : ℕ
  microsecond : ℕ
deriving DecidableEq

/-- Field ranges enforced by the Python `datetime` constructor. -/
def PyDateTime.Valid (d : PyDateTime) : Prop :=
  1 ≤ d.year ∧ d.year ≤ 9999 ∧ 1 ≤ d.month ∧ d.month ≤ 12 ∧ 1 ≤ d.day ∧
    d.day ≤ 31 ∧ d.hour ≤ 23 ∧ d.minute ≤ 59 ∧ d.second ≤ 59 ∧
    d.microsecond ≤ 999999

instance (d : PyDateTime) : Decidable d.Valid := by
  unfold PyDateTime.Valid
  infer_instance

/-- Two-digit zero-padded decimal rendering. -/
def pad2 (n : ℕ) : List Char := [digitOf (n / 10), digitOf (n % 10)]

/-- Four-digit zero-padded decimal rendering. -/
def pad4 (n : ℕ) : List Char :=
  [digitOf (n / 1000), digitOf (n / 100 % 10), digitOf (n / 10 % 10), digitOf (n % 10)]

/-- Six-digit zero-padded decimal rendering. -/
def pad6 (n : ℕ) : List Char :=
  [digitOf (n / 100000), digitOf (n / 10000 % 10), digitOf (n / 1000 % 10),
    digitOf (n / 100 % 10), digitOf (n / 10 % 10), digitOf (n % 10)]

/-- The date-time core of `datetime.isoformat()`: date, `T`, time, and
the fraction part printed only for a non-zero microsecond field. -/
def isoCore (d : PyDateTime) : List Char :=
  pad4 d.year ++ '-' :: pad2 d.month ++ '-' :: pad2 d.day ++ 'T' :: pad2 d.hour ++
    ':' :: pad2 d.minute ++ ':' :: pad2 d.second ++
    (if d.microsecond = 0 then [] else '.' :: pad6 d.microsecond)

/-- Model of `datetime.isoformat()` on a timezone-aware UTC value: the
core followed by the numeric offset suffix. -/
def isoformatUTC (d : PyDateTime) : List Char := isoCore d ++ sl "+00:00"

/-- Model of `format_timestamp`
(src/tatc_mcp/schema_formatter.py lines 26-50): format via `isoformat`,
then replace a trailing `+00:00` by `Z`, or append `Z` when no `Z` is
present. -/
def formatTimestamp (d : PyDateTime) : List Char :=
  if endsWith (isoformatUTC d) (sl "+00:00") then
    (isoformatUTC d).take ((isoformatUTC d).length - 6) ++ ['Z']
  else if endsWith (isoformatUTC d) ['Z'] then isoformatUTC d
  else isoformatUTC d ++ ['Z']

/-- A numeric UTC-offset suffix: a sign followed by `HH:MM`. -/
def offsetSuffix (plus : Bool) (hh mm : ℕ) : List Char :=
  (if plus then '+' else '-') :: (pad2 hh ++ ':' :: pad2 mm)

/-- Modelled from the spec: a "standard ISO-8601 parser" is external to
this repository; this reader accepts exactly
`YYYY-MM-DDTHH:MM:SS[.f+]Z` with in-range fields, ignoring the fraction
(second precision). -/
def readDigitPair (l : List Char) : Option (ℕ × List Char) :=
  match l with
  | a :: b :: rest =>
    if a.isDigit ∧ b.isDigit then some (10 * charVal a + charVal b, rest) else none
  | _ => none

/-- Four-digit reader of the ISO-8601 parser model. -/
def readDigitQuad (l : List Char) : Option (ℕ × List Char) :=
  match l with
  | a :: b :: c :: d :: rest =>
    if a.isDigit ∧ b.isDigit ∧ c.isDigit ∧ d.isDigit then
      some (1000 * charVal a + 100 * charVal b + 10 * charVal c + charVal d, rest)
    else none
  | _ => none

/-- Single-character separator reader of the ISO-8601 parser model. -/
def expectChar (c : Char) (l : List Char) : Option (List Char) :=
  match l with
  | x :: rest => if x = c then some rest else none
  | [] => none

/-- Fraction skipper of the ISO-8601 parser model: a dot must be followed
by at least one digit; without a dot nothing is consumed. -/
def skipFrac (l : List Char) : Option (List Char) :=
  match l with
  | [] => some []
  | c :: rest =>
    if c = '.' then
      if rest.takeWhile Char.isDigit = [] then none
      else some (rest.dropWhile Char.isDigit)
    else some (c :: rest)

/-- Modelled from the spec: the standard strict ISO-8601 UTC parser used
to state the round-trip property, returning the parsed instant at second
precision. -/
def parseIso8601Z (l : List Char) : Option PyDateTime :=
  match readDigitQuad l with
  | none => none
  | some (y, r1) =>
    match expectChar '-' r1 with
    | none => none
    | some r2 =>
      match readDigitPair r2 with
      | none => none
      | some (mo, r3) =>
        match expectChar '-' r3 with
        | none => none
        | some r4 =>
          match readDigitPair r4 with
          | none => none
          | some (dy, r5) =>
            match expectChar 'T' r5 with
            | none => none
            | some r6 =>
              match readDigitPair r6 with
              | none => none
              | some (hh, r7) =>
                match expectChar ':' r7 with
                | none => none
                | some r8 =>
                  match readDigitPair r8 with
                  | none => none
                  | some (mi, r9) =>
                    match expectChar ':' r9 with
                    | none => none
                    | some r10 =>
                      match readDigitPair r10 with
                      | none => none
                      | some (ss, r11) =>
                        match skipFrac r11 with
                        | none => none
                        | some r12 =>
                          if r12 = ['Z'] then
                            if 1 ≤ mo ∧ mo ≤ 12 ∧ 1 ≤ dy ∧ dy ≤ 31 ∧
                                hh ≤ 23 ∧ mi ≤ 59 ∧ ss ≤ 59 then
                              some ⟨y, mo, dy, hh, mi, ss, 0⟩
                            else none
                          else none

/-- A string ends with any of its suffixes. -/
theorem endsWith_append (a s : List Char) : endsWith (a ++ s) s = true := by
  rw [endsWith, decide_eq_true_eq, List.reverse_append,
    show s.length = s.reverse.length from (List.length_reverse s).symm,
    List.take_left]

/-- The formatter always rewrites the `+00:00` suffix of `isoformat` into
a literal `Z`. -/
theorem formatTimestamp_eq (d : PyDateTime) :
    formatTimestamp d = isoCore d ++ ['Z'] := by
  rw [formatTimestamp, if_pos (by rw [isoformatUTC]; exact endsWith_append _ _),
    isoformatUTC]
  have hlen : (isoCore d ++ sl "+00:00").length - 6 = (isoCore d).length := by
    rw [List.length_append, show (sl "+00:00").length = 6 from rfl]
    omega
  rw [hlen, List.take_left]

/-- The two-digit reader inverts two-digit padding. -/
theorem readDigitPair_pad2 (n : ℕ) (hn : n ≤ 99) :
    ∀ rest : List Char, readDigitPair (pad2 n ++ rest) = some (n, rest) := by
  intro rest
  obtain ⟨ha1, ha2, -, -, -, -⟩ := digitOf_props (n / 10) (by omega)
  obtain ⟨hb1, hb2, -, -, -, -⟩ := digitOf_props (n % 10) (by omega)
  rw [pad2]
  simp only [List.cons_append, List.nil_append]
  rw [readDigitPair, if_pos ⟨ha1, hb1⟩, ha2, hb2,
    show 10 * (n / 10) + n % 10 = n from by omega]

/-- The four-digit reader inverts four-digit padding. -/
theorem readDigitQuad_pad4 (n : ℕ) (hn : n ≤ 9999) :
    ∀ rest : List Char, readDigitQuad (pad4 n ++ rest) = some (n, rest) := by
  intro rest
  obtain ⟨ha1, ha2, -, -, -, -⟩ := digitOf_props (n / 1000) (by omega)
  obtain ⟨hb1, hb2, -, -, -, -⟩ := digitOf_props (n / 100 % 10) (by omega)
  obtain ⟨hc1, hc2, -, -, -, -⟩ := digitOf_props (n / 10 % 10) (by omega)
  obtain ⟨hd1, hd2, -, -, -, -⟩ := digitOf_props (n % 10) (by omega)
  rw [pad4]
  simp only [List.cons_append, List.nil_append]
  rw [readDigitQuad, if_pos ⟨ha1, hb1, hc1, hd1⟩, ha2, hb2, hc2, hd2,
    show 1000 * (n / 1000) + 100 * (n / 100 % 10) + 10 * (n / 10 % 10) + n % 10 = n
      from by omega]

/-- The separator reader consumes a matching head character. -/
theorem expectChar_cons (c : Char) (rest : List Char) :
    expectChar c (c :: rest) = some rest := by
  rw [expectChar, if_pos rfl]

/-- The fraction skipper passes a bare `Z` through. -/
theorem skipFrac_z : skipFrac ['Z'] = some ['Z'] := rfl

/-- The fraction skipper consumes a six-digit fraction before the `Z`. -/
theorem skipFrac_frac (mu : ℕ) (hmu : mu ≤ 999999) :
    skipFrac ('.' :: (pad6 mu ++ ['Z'])) = some ['Z'] := by
  have hall : ∀ c ∈ pad6 mu, c.isDigit = true := by
    intro c hc
    rw [pad6] at hc
    simp only [List.mem_cons, List.mem_singleton, List.not_mem_nil, or_false] at hc
    rcases hc with rfl | rfl | rfl | rfl | rfl | rfl
    · exact (digitOf_props (mu / 100000) (by omega)).1
    · exact (digitOf_props (mu / 10000 % 10) (by omega)).1
    · exact (digitOf_props (mu / 1000 % 10) (by omega)).1
    · exact (digitOf_props (mu / 100 % 10) (by omega)).1
    · exact (digitOf_props (mu / 10 % 10) (by omega)).1
    · exact (digitOf_props (mu % 10) (by omega)).1
  rw [skipFrac, if_pos rfl,
    takeWhile_append_of _ _ _ _ hall (by decide),
    dropWhile_append_of _ _ _ _ hall (by decide), if_neg]
  rw [pad6]
  exact List.cons_ne_nil _ _

/-- Claim C3: the formatter output always ends in a literal `Z`, never in
a numeric UTC-offset suffix, and parsing it with the standard ISO-8601
reader recovers the original UTC instant at second precision. -/
theorem c3_format_timestamp_roundtrip (d : PyDateTime) (hv : d.Valid) :
    (formatTimestamp d).getLast? = some 'Z' ∧
    (∀ (plus : Bool) (hh mm : ℕ),
      endsWith (formatTimestamp d) (offsetSuffix plus hh mm) = false) ∧
    parseIso8601Z (formatTimestamp d) =
      some ⟨d.year, d.month, d.day, d.hour, d.minute, d.second, 0⟩ := by
  obtain ⟨h1, h2, h3, h4, h5, h6, h7, h8, h9, h10⟩ := hv
  have hfmt := formatTimestamp_eq d
  refine ⟨?_, ?_, ?_⟩
  · rw [hfmt, List.getLast?_concat]
  · intro plus hh mm
    rw [hfmt, endsWith, decide_eq_false_iff_not]
    intro heq
    have hlen : (offsetSuffix plus hh mm).length = 6 := by
      rw [offsetSuffix, pad2, pad2]
      simp
    have hrev : (offsetSuffix plus hh mm).reverse =
        digitOf (mm % 10) :: [digitOf (mm / 10), ':', digitOf (hh % 10),
          digitOf (hh / 10), if plus then '+' else '-'] := by
      rw [offsetSuffix, pad2, pad2]
      simp
    rw [hlen, hrev, List.reverse_append, List.reverse_cons, List.reverse_nil,
      List.nil_append, List.singleton_append, List.take_succ_cons] at heq
    have hhead : 'Z' = digitOf (mm % 10) := (List.cons.injEq _ _ _ _).mp heq |>.1
    have hdig := (digitOf_props (mm % 10) (by omega)).1
    rw [← hhead] at hdig
    exact absurd hdig (by decide)
  · rw [hfmt]
    simp only [isoCore, List.append_assoc, List.cons_append, List.nil_append]
    rw [parseIso8601Z]
    by_cases hmu : d.microsecond = 0
    · simp only [if_pos hmu, List.nil_append,
        readDigitQuad_pad4 d.year h2, expectChar_cons,
        readDigitPair_pad2 d.month (by omega),
        readDigitPair_pad2 d.day (by omega),
        readDigitPair_pad2 d.hour (by omega),
        readDigitPair_pad2 d.minute (by omega),
        readDigitPair_pad2 d.second (by omega), skipFrac_z]
      rw [if_pos trivial, if_pos ⟨h3, h4, h5, h6, h7, h8, h9⟩]
    · simp only [if_neg hmu, List.cons_append, List.append_assoc,
        readDigitQuad_pad4 d.year h2, expectChar_cons,
        readDigitPair_pad2 d.month (by omega),
        readDigitPair_pad2 d.day (by omega),
        readDigitPair_pad2 d.hour (by omega),
        readDigitPair_pad2 d.minute (by omega),
        readDigitPair_pad2 d.second (by omega),
        skipFrac_frac d.microsecond h10]
      rw [if_pos trivial, if_pos ⟨h3, h4, h5, h6, h7, h8, h9⟩]

/-- Witness for C3 at a concrete instant with a non-zero microsecond
field. -/
theorem c3_format_timestamp_roundtrip_witness :
    parseIso8601Z (formatTimestamp ⟨2024, 1, 2, 3, 4, 5, 123456⟩) =
      some ⟨2024, 1, 2, 3, 4, 5, 0⟩ :=
  (c3_format_timestamp_roundtrip ⟨2024, 1, 2, 3, 4, 5, 123456⟩ (by decide)).2.2
